import Mathlib

/-!
Verification of the Authentication & Synchronization Engine of an
Electron/React EVE-inventory application, shallowly embedded in Lean 4.

Each definition mirrors one function of the TypeScript source:
  - `ESIAuthManager.handleCallback`   (src/main/api/ipc-handlers.ts)
  - `ESIClient` response interceptor  (src/main/api/esi-client.ts)
  - `EnhancedESIClient.getCharacterAssetsWithFallback` (src/main/api/esi-client.ts)
  - `ESIClient.addToRateLimitQueue` / `processRateLimitQueue` (src/main/api/esi-client.ts)
  - `AssetService.storeCharacterAssets` / `getCharacterAssetStats`
  - `AuthStore.isTokenExpired`, `CharacterService.isTokenExpired`
  - `groupAssetsByLocation`, `formatLocationInfo` (src/renderer/components/Inventory.tsx)

JavaScript numbers used purely for ordering comparisons are modelled as
`Nat`/`Int`/`Rat`; fallible calls are modelled as `Except`; the mutable
object state threaded through a flow is passed explicitly.
-/

/-- `StoredCharacterAuth` as in src/main/api/types.ts: one stored credential. -/
structure StoredCharacterAuth where
  character_id : Nat
  character_name : String
  access_token : String
  refresh_token : String
  token_expires : Nat
  scopes : List String
  last_updated : Nat
  deriving DecidableEq, Repr

/-- Token-endpoint response shape (`EVEAuthTokens`). -/
structure EVEAuthTokens where
  access_token : String
  refresh_token : String
  expires_in : Nat
  deriving DecidableEq, Repr

/-! ## Security classification (Inventory.tsx, `formatLocationInfo`)

The source computes
`securityClass = solarSystem.security >= 0.5 ? 'high-sec' : solarSystem.security > 0.0 ? 'low-sec' : 'null-sec'`
guarded by `solarSystem?.security !== undefined`.  The float comparisons
against the exactly representable constants 0.5 and 0.0 coincide with
rational comparisons, so `security` is modelled as `Rat`. -/

def securityClassOf (security : Option Rat) : String :=
  match security with
  | none => ""
  | some s => if s ≥ (1 : Rat) / 2 then "high-sec"
              else if s > 0 then "low-sec"
              else "null-sec"

/-! ## Token-expiry checks

`AuthStore.isTokenExpired` (electron-store backed, milliseconds):
looks up `characters[characterId]`; a missing entry yields `true`;
otherwise `auth.token_expires < Date.now() + 300000`.

`CharacterService.isTokenExpired` (SQLite backed, seconds):
`getCharacter` returns the first row with the id, or null; a missing row
yields `true`; otherwise `character.tokenExpires < now + 300`. -/

namespace AuthStore

def isTokenExpired (characters : Nat → Option StoredCharacterAuth)
    (nowMs : Nat) (characterId : Nat) : Bool :=
  match characters characterId with
  | none => true
  | some auth => decide (auth.token_expires < nowMs + 300000)

end AuthStore

/-- One row of the `characters` table, as read by `CharacterService.getCharacter`
(token fields are stored encrypted; only the fields the expiry check touches
are carried). -/
structure CharacterRow where
  characterId : Nat
  characterName : String
  tokenExpires : Nat
  deriving DecidableEq, Repr

namespace CharacterService

def getCharacter (rows : List CharacterRow) (characterId : Nat) : Option CharacterRow :=
  rows.find? (fun c => c.characterId = characterId)

def isTokenExpired (rows : List CharacterRow) (nowSec : Nat) (characterId : Nat) : Bool :=
  match getCharacter rows characterId with
  | none => true
  | some c => decide (c.tokenExpires < nowSec + 300)

end CharacterService

/-- C7: the classifier over a known security value: `>= 0.5` is exactly
high-sec, `0 < s < 0.5` exactly low-sec, `<= 0` exactly null-sec. -/
theorem securityClass_trichotomy (s : Rat) :
    (securityClassOf (some s) = "high-sec" ↔ (1 : Rat) / 2 ≤ s) ∧
    (securityClassOf (some s) = "low-sec" ↔ (0 < s ∧ s < (1 : Rat) / 2)) ∧
    (securityClassOf (some s) = "null-sec" ↔ s ≤ 0) := by
  show ((if s ≥ (1:Rat)/2 then "high-sec" else if s > 0 then "low-sec" else "null-sec") = "high-sec" ↔ _) ∧
    ((if s ≥ (1:Rat)/2 then "high-sec" else if s > 0 then "low-sec" else "null-sec") = "low-sec" ↔ _) ∧
    ((if s ≥ (1:Rat)/2 then "high-sec" else if s > 0 then "low-sec" else "null-sec") = "null-sec" ↔ _)
  split_ifs with h1 h2
  · exact ⟨⟨fun _ => h1, fun _ => rfl⟩,
      ⟨fun h => absurd h (by decide), fun hc => absurd h1 (not_le.mpr hc.2)⟩,
      ⟨fun h => absurd h (by decide), fun hc => absurd h1 (not_le.mpr (by linarith))⟩⟩
  · exact ⟨⟨fun h => absurd h (by decide), fun hle => absurd hle h1⟩,
      ⟨fun _ => ⟨h2, not_le.mp h1⟩, fun _ => rfl⟩,
      ⟨fun h => absurd h (by decide), fun hc => absurd h2 (not_lt.mpr hc)⟩⟩
  · exact ⟨⟨fun h => absurd h (by decide), fun hle => absurd hle h1⟩,
      ⟨fun h => absurd h (by decide), fun hc => absurd hc.1 h2⟩,
      ⟨fun _ => not_lt.mp h2, fun _ => rfl⟩⟩

/-- C10: a character id with no stored credential is reported as expired
(`true`), not as an error, by both the electron-store backed check and the
database-backed check. -/
theorem isTokenExpired_missing_credential
    (characters : Nat → Option StoredCharacterAuth) (rows : List CharacterRow)
    (nowMs nowSec characterId : Nat)
    (hstore : characters characterId = none)
    (hdb : CharacterService.getCharacter rows characterId = none) :
    AuthStore.isTokenExpired characters nowMs characterId = true ∧
    CharacterService.isTokenExpired rows nowSec characterId = true := by
  constructor
  · unfold AuthStore.isTokenExpired
    rw [hstore]
  · unfold CharacterService.isTokenExpired
    rw [hdb]

/-- C10 witness: the empty store and the empty table report character 7 as
expired. -/
theorem isTokenExpired_missing_credential_witness :
    (fun _ : Nat => (none : Option StoredCharacterAuth)) 7 = none ∧
    CharacterService.getCharacter [] 7 = none ∧
    (AuthStore.isTokenExpired (fun _ => none) 1000 7 = true ∧
     CharacterService.isTokenExpired [] 1000 7 = true) :=
  ⟨rfl, rfl, isTokenExpired_missing_credential (fun _ => none) [] 1000 1000 7 rfl rfl⟩

/-! ## PKCE callback handling (`ESIAuthManager.handleCallback`)

The manager holds `codeVerifier : string | null` and `authState : string | null`
(the in-memory PKCE session).  `handleCallback(callbackUrl)` parses
`code`, `state`, `error`, `error_description` from the URL, then in order:
throws on a present `error`; throws on `state !== this.authState`; throws on a
missing `code`; throws on a missing `codeVerifier`; exchanges the code at the
token endpoint; fetches character info; assembles the credential; and only
then sets `codeVerifier`/`authState` to null.

The embedding passes the session explicitly and returns the post-call session
together with a flag recording whether the token endpoint was contacted. -/

/-- The in-memory PKCE session of `ESIAuthManager`. -/
structure PKCESession where
  codeVerifier : Option String
  authState : Option String
  deriving DecidableEq, Repr

/-- The query parameters `handleCallback` reads from the callback URL
(`null` when absent). -/
structure CallbackParams where
  code : Option String
  state : Option String
  error : Option String
  error_description : Option String
  deriving DecidableEq, Repr

/-- The distinct `throw new Error(...)` exits of `handleCallback`. -/
inductive AuthFailure where
  | oauthError (e : String)
  | invalidState
  | noCode
  | noVerifier
  | tokenExchangeFailed
  | characterInfoFailed
  deriving DecidableEq, Repr

/-- Identity data obtained from the verification endpoint. -/
structure CharacterInfo where
  character_id : Nat
  character_name : String
  deriving DecidableEq, Repr


/-- The observable result of one `handleCallback` run: its outcome, the
session state left behind, and whether a token-endpoint request was made. -/
structure CallbackRun where
  outcome : Except AuthFailure StoredCharacterAuth
  session : PKCESession
  tokenEndpointCalled : Bool
  deriving Repr

namespace ESIAuthManager

/-- `handleCallback`, with the two network calls (`exchangeCodeForTokens` and
`getCharacterInfo`) supplied as environment results. -/
def handleCallback (sess : PKCESession) (cb : CallbackParams)
    (exchange : Except Unit EVEAuthTokens)
    (charInfo : Except Unit (CharacterInfo × List String))
    (now : Nat) : CallbackRun :=
  match cb.error with
  | some e => ⟨Except.error (.oauthError e), sess, false⟩
  | none =>
    if cb.state ≠ sess.authState then ⟨Except.error .invalidState, sess, false⟩
    else match cb.code with
      | none => ⟨Except.error .noCode, sess, false⟩
      | some _ =>
        match sess.codeVerifier with
        | none => ⟨Except.error .noVerifier, sess, false⟩
        | some _ =>
          match exchange with
          | Except.error _ => ⟨Except.error .tokenExchangeFailed, sess, true⟩
          | Except.ok tokens =>
            match charInfo with
            | Except.error _ => ⟨Except.error .characterInfoFailed, sess, true⟩
            | Except.ok (ch, scopes) =>
              ⟨Except.ok
                { character_id := ch.character_id
                  character_name := ch.character_name
                  access_token := tokens.access_token
                  refresh_token := tokens.refresh_token
                  token_expires := now + tokens.expires_in * 1000
                  scopes := scopes
                  last_updated := now },
               ⟨none, none⟩, true⟩

end ESIAuthManager

/-- C1 counterexample: a callback whose `state` differs from the issued
anti-forgery state but which also carries an `error` parameter is rejected
with the OAuth provider error, not with the CSRF (`invalidState`) error, so
"fails with a CSRF error" is false as stated for that callback (no
token-endpoint call is made either way). -/
theorem handleCallback_state_mismatch_not_always_csrf :
    (CallbackParams.mk (some "abc") (some "X") (some "access_denied") none).state ≠
      (PKCESession.mk (some "v") (some "S")).authState ∧
    (ESIAuthManager.handleCallback ⟨some "v", some "S"⟩
        ⟨some "abc", some "X", some "access_denied", none⟩
        (Except.ok ⟨"T1", "R1", 1200⟩) (Except.ok (⟨42, "N"⟩, ["a"])) 0).outcome =
      Except.error (AuthFailure.oauthError "access_denied") ∧
    (ESIAuthManager.handleCallback ⟨some "v", some "S"⟩
        ⟨some "abc", some "X", some "access_denied", none⟩
        (Except.ok ⟨"T1", "R1", 1200⟩) (Except.ok (⟨42, "N"⟩, ["a"])) 0).outcome ≠
      Except.error AuthFailure.invalidState :=
  ⟨by decide, rfl, by simp [ESIAuthManager.handleCallback]⟩

/-- C1 (amended): a callback whose `state` differs from the session's issued
anti-forgery state always fails before any token-endpoint request is made;
when the callback carries no `error` parameter the failure is exactly the
CSRF (`invalidState`) error. -/
theorem handleCallback_state_mismatch_rejected
    (sess : PKCESession) (cb : CallbackParams)
    (exchange : Except Unit EVEAuthTokens)
    (charInfo : Except Unit (CharacterInfo × List String)) (now : Nat)
    (s : String) (hissued : sess.authState = some s) (hmismatch : cb.state ≠ some s) :
    (∃ f, (ESIAuthManager.handleCallback sess cb exchange charInfo now).outcome =
        Except.error f) ∧
    (ESIAuthManager.handleCallback sess cb exchange charInfo now).tokenEndpointCalled = false ∧
    (cb.error = none →
      (ESIAuthManager.handleCallback sess cb exchange charInfo now).outcome =
        Except.error AuthFailure.invalidState) := by
  have hne : cb.state ≠ sess.authState := by rw [hissued]; exact hmismatch
  cases herr : cb.error with
  | some e =>
    refine ⟨⟨.oauthError e, ?_⟩, ?_, ?_⟩ <;> simp [ESIAuthManager.handleCallback, herr]
  | none =>
    refine ⟨⟨.invalidState, ?_⟩, ?_, fun _ => ?_⟩ <;>
      simp [ESIAuthManager.handleCallback, herr, hne]

/-- C1 witness: a concrete mismatched-state callback (issued state "S",
callback state "X", no error parameter) is rejected with the CSRF error and
no token-endpoint call. -/
theorem handleCallback_state_mismatch_rejected_witness :
    (PKCESession.mk (some "v") (some "S")).authState = some "S" ∧
    (CallbackParams.mk (some "abc") (some "X") none none).state ≠ some "S" ∧
    ((∃ f, (ESIAuthManager.handleCallback ⟨some "v", some "S"⟩
        ⟨some "abc", some "X", none, none⟩
        (Except.ok ⟨"T1", "R1", 1200⟩) (Except.ok (⟨42, "N"⟩, ["a"])) 0).outcome =
        Except.error f) ∧
     (ESIAuthManager.handleCallback ⟨some "v", some "S"⟩
        ⟨some "abc", some "X", none, none⟩
        (Except.ok ⟨"T1", "R1", 1200⟩)
        (Except.ok (⟨42, "N"⟩, ["a"])) 0).tokenEndpointCalled = false ∧
     ((CallbackParams.mk (some "abc") (some "X") none none).error = none →
      (ESIAuthManager.handleCallback ⟨some "v", some "S"⟩
        ⟨some "abc", some "X", none, none⟩
        (Except.ok ⟨"T1", "R1", 1200⟩) (Except.ok (⟨42, "N"⟩, ["a"])) 0).outcome =
        Except.error AuthFailure.invalidState)) :=
  ⟨rfl, by decide,
   handleCallback_state_mismatch_rejected ⟨some "v", some "S"⟩
     ⟨some "abc", some "X", none, none⟩
     (Except.ok ⟨"T1", "R1", 1200⟩) (Except.ok (⟨42, "N"⟩, ["a"])) 0 "S" rfl (by decide)⟩

/-- C4 counterexample: a CSRF-mismatch exit of `handleCallback` leaves the
PKCE session (code verifier and anti-forgery state) in memory instead of
clearing it, so the claim that every exit of the flow clears the session is
false. -/
theorem handleCallback_error_exit_keeps_session :
    (ESIAuthManager.handleCallback ⟨some "v", some "S"⟩
        ⟨some "abc", some "X", none, none⟩
        (Except.ok ⟨"T1", "R1", 1200⟩) (Except.ok (⟨42, "N"⟩, ["a"])) 0).outcome =
      Except.error AuthFailure.invalidState ∧
    (ESIAuthManager.handleCallback ⟨some "v", some "S"⟩
        ⟨some "abc", some "X", none, none⟩
        (Except.ok ⟨"T1", "R1", 1200⟩) (Except.ok (⟨42, "N"⟩, ["a"])) 0).session =
      ⟨some "v", some "S"⟩ ∧
    (PKCESession.mk (some "v") (some "S")) ≠ ⟨none, none⟩ :=
  ⟨rfl, rfl, by decide⟩

/-- C4 (amended): the PKCE session is cleared exactly on the success exit of
`handleCallback`; on every error exit (provider error, CSRF mismatch,
missing code or verifier, exchange or verification failure) it is left
unchanged in memory, to be overwritten only by the next `initiateAuth`. -/
theorem handleCallback_session_cleared_iff_success
    (sess : PKCESession) (cb : CallbackParams)
    (exchange : Except Unit EVEAuthTokens)
    (charInfo : Except Unit (CharacterInfo × List String)) (now : Nat) :
    (ESIAuthManager.handleCallback sess cb exchange charInfo now).session =
      (match (ESIAuthManager.handleCallback sess cb exchange charInfo now).outcome with
        | Except.ok _ => ({ codeVerifier := none, authState := none } : PKCESession)
        | Except.error _ => sess) := by
  unfold ESIAuthManager.handleCallback
  split
  · rfl
  · split
    · rfl
    · split
      · rfl
      · split
        · rfl
        · split
          · rfl
          · split
            · rfl
            · rfl

/-! ## Response interceptor of `ESIClient` (401 refresh-and-retry, 420/429 backoff)

The axios response interceptor, on an error response for a request carrying
`_characterId`:
  - on `401` with `_retry` not yet set: sets `_retry`, calls
    `refreshCharacterToken` (which exchanges the stored `refresh_token` and
    writes the new tokens into the store, or throws), and on success re-issues
    the original request once; if the refresh throws, the stored credential is
    removed (`removeCharacterAuth`) and the original `401` is rejected;
  - on `420`/`429`: waits `retry-after` and re-issues the same request
    (unbounded, `_retry` untouched);
  - otherwise rejects the error.
Axios treats status codes in `[200, 300)` as success.

The embedding threads the credential store entry for the one character
explicitly; the remote server is a list of status codes consumed one per
dispatched attempt. -/

/-- Terminal result of one logical call through the interceptor. -/
inductive CallOutcome where
  | success
  | rejected (status : Nat)
  | noResponse
  deriving DecidableEq, Repr

namespace ESIClient

/-- `refreshCharacterToken`'s store update: new access/refresh tokens and
expiry `Date.now() + expires_in * 1000`. -/
def applyRefresh (auth : StoredCharacterAuth) (tokens : EVEAuthTokens)
    (now : Nat) : StoredCharacterAuth :=
  { auth with
    access_token := tokens.access_token
    refresh_token := tokens.refresh_token
    token_expires := now + tokens.expires_in * 1000
    last_updated := now }

/-- One logical request under the response interceptor.  `responses` is the
sequence of status codes the server answers with for successive dispatched
attempts; `retried` is the `_retry` flag on the request config; `store` is
the credential-store entry for the request's `_characterId`;
`refreshOutcome` is what the token endpoint answers to a refresh.
Returns the call outcome and the final store entry. -/
def runRequest : List Nat → Bool → Option StoredCharacterAuth →
    Except Unit EVEAuthTokens → Nat → CallOutcome × Option StoredCharacterAuth
  | [], _, store, _, _ => (.noResponse, store)
  | status :: rest, retried, store, refreshOutcome, now =>
    if 200 ≤ status ∧ status < 300 then (.success, store)
    else if status = 401 ∧ retried = false then
      match store with
      | some auth =>
        match refreshOutcome with
        | Except.ok tokens =>
          runRequest rest true (some (applyRefresh auth tokens now)) refreshOutcome now
        | Except.error _ => (.rejected 401, none)
      | none => (.rejected 401, none)
    else if status = 420 ∨ status = 429 then
      runRequest rest retried store refreshOutcome now
    else (.rejected status, store)

end ESIClient

/-- C2 counterexample: with a stored credential and a working token endpoint,
a call that receives `401` twice (original attempt and the single retry) is
rejected, but the stored credential is NOT invalidated — the refreshed
credential is still in the store — contradicting the claim that a second
`401` removes the stored credential. -/
theorem runRequest_second_401_keeps_credential :
    ESIClient.runRequest [401, 401] false
        (some ⟨42, "N", "T0", "R0", 0, ["a"], 0⟩)
        (Except.ok ⟨"T1", "R1", 1200⟩) 7 =
      (CallOutcome.rejected 401,
       some ⟨42, "N", "T1", "R1", 7 + 1200 * 1000, ["a"], 7⟩) ∧
    (some (⟨42, "N", "T1", "R1", 7 + 1200 * 1000, ["a"], 7⟩ : StoredCharacterAuth)) ≠
      none :=
  ⟨rfl, by decide⟩

/-- C2 (amended): a first `401` triggers exactly one refresh-and-retry; if the
retry receives a second `401` the call is rejected with no further attempt,
regardless of any further server responses, and the store keeps the
refreshed credential (it is removed only when the refresh itself fails, in
which case the call is rejected after the very first `401`). -/
theorem runRequest_401_retry_once
    (rest : List Nat) (auth : StoredCharacterAuth) (tokens : EVEAuthTokens)
    (now : Nat) :
    ESIClient.runRequest (401 :: 401 :: rest) false (some auth)
        (Except.ok tokens) now =
      (CallOutcome.rejected 401, some (ESIClient.applyRefresh auth tokens now)) ∧
    ESIClient.runRequest (401 :: rest) false (some auth)
        (Except.error ()) now =
      (CallOutcome.rejected 401, none) := by
  constructor
  · show ESIClient.runRequest (401 :: 401 :: rest) false (some auth)
        (Except.ok tokens) now = _
    rw [ESIClient.runRequest]
    norm_num
    rw [ESIClient.runRequest]
    norm_num
  · rw [ESIClient.runRequest]
    norm_num

/-! ## Asset storage (`AssetService.storeCharacterAssets`) and
fetch-or-cache fallback (`EnhancedESIClient.getCharacterAssetsWithFallback`)

`storeCharacterAssets(characterId, assets)` first deletes every
`character_assets` row of that character, maps the API assets to rows
(stamping `syncedAt = now`), and inserts them in batches of 500.

`getCharacterAssetsWithFallback(characterId, forceRefresh)`:
  - `forceRefresh`: `getAndSyncCharacterAssets` (fetch + store); an API error
    propagates out of the function;
  - otherwise: compute the cache age from `getCharacterAssetStats`'s
    `lastSyncTime` (`Infinity` when there are no rows); if the age exceeds
    1800 s, try `getAndSyncCharacterAssets` but CATCH and swallow any API
    error; finally return the (possibly refreshed) cached rows. -/

/-- `EVEAsset` as returned by the remote API (src/main/api/types.ts). -/
structure EVEAsset where
  item_id : Nat
  type_id : Nat
  quantity : Nat
  location_id : Nat
  location_flag : String
  location_type : String
  is_singleton : Bool
  is_blueprint_copy : Option Bool
  deriving DecidableEq, Repr

/-- One row of the `character_assets` table. -/
structure AssetRow where
  characterId : Nat
  itemId : Nat
  typeId : Nat
  quantity : Nat
  locationId : Nat
  locationFlag : String
  locationType : String
  isSingleton : Bool
  isBlueprintCopy : Bool
  syncedAt : Nat
  deriving DecidableEq, Repr

namespace AssetService

/-- The per-asset record mapping inside `storeCharacterAssets`
(`isBlueprintCopy: asset.is_blueprint_copy || false`). -/
def toAssetRow (characterId now : Nat) (a : EVEAsset) : AssetRow :=
  { characterId := characterId
    itemId := a.item_id
    typeId := a.type_id
    quantity := a.quantity
    locationId := a.location_id
    locationFlag := a.location_flag
    locationType := a.location_type
    isSingleton := a.is_singleton
    isBlueprintCopy := a.is_blueprint_copy.getD false
    syncedAt := now }

/-- The insert loop `for (let i = 0; i < records.length; i += 500)`: the
record list cut into slices of 500. -/
def batchesOf500 (records : List AssetRow) : List (List AssetRow) :=
  if h : records = [] then []
  else records.take 500 :: batchesOf500 (records.drop 500)
  termination_by records.length
  decreasing_by
    simp only [List.length_drop]
    have : 0 < records.length := List.length_pos.mpr h
    omega

/-- `storeCharacterAssets`: delete the character's rows, then append the
batched inserts of the freshly mapped rows. -/
def storeCharacterAssets (db : List AssetRow) (characterId : Nat)
    (assets : List EVEAsset) (now : Nat) : List AssetRow :=
  let afterDelete := db.filter (fun r => r.characterId ≠ characterId)
  let records := assets.map (toAssetRow characterId now)
  (batchesOf500 records).foldl (fun d batch => d ++ batch) afterDelete

/-- `getCharacterAssets`: select the rows of one character. -/
def getCharacterAssets (db : List AssetRow) (characterId : Nat) : List AssetRow :=
  db.filter (fun r => r.characterId = characterId)

/-- `getCharacterAssetStats`'s `lastSyncTime`: `null` when the character has
no rows, otherwise `Math.max` of the rows' `syncedAt`. -/
def lastSyncTime (db : List AssetRow) (characterId : Nat) : Option Nat :=
  match getCharacterAssets db characterId with
  | [] => none
  | r :: rs => some ((r :: rs).foldl (fun m row => max m row.syncedAt) 0)

end AssetService

/-- Joining the 500-element batches gives back the record list. -/
theorem batchesOf500_join (records : List AssetRow) :
    (AssetService.batchesOf500 records).join = records := by
  rw [AssetService.batchesOf500]
  split_ifs with h
  · simp [h]
  · have ih := batchesOf500_join (records.drop 500)
    simpa [ih] using List.take_append_drop 500 records
  termination_by records.length
  decreasing_by
    simp only [List.length_drop]
    have : 0 < records.length := List.length_pos.mpr h
    omega

/-- Folding list-append over a list of batches appends their join. -/
theorem foldl_append_eq_join (bs : List (List AssetRow)) (init : List AssetRow) :
    bs.foldl (fun d b => d ++ b) init = init ++ bs.join := by
  induction bs generalizing init with
  | nil => simp
  | cons b bs ih => simp [List.foldl, ih]

/-- `storeCharacterAssets` in closed form: the surviving rows of the other
characters followed by the freshly mapped rows. -/
theorem storeCharacterAssets_eq (db : List AssetRow) (characterId : Nat)
    (assets : List EVEAsset) (now : Nat) :
    AssetService.storeCharacterAssets db characterId assets now =
      db.filter (fun r => r.characterId ≠ characterId) ++
        assets.map (AssetService.toAssetRow characterId now) := by
  unfold AssetService.storeCharacterAssets
  rw [foldl_append_eq_join, batchesOf500_join]

/-- C8: after a successful synchronization the stored record set of the
identity is exactly the freshly fetched set — every previous row of that
identity is gone and nothing is merged. -/
theorem storeCharacterAssets_replaces_wholesale (db : List AssetRow)
    (characterId : Nat) (assets : List EVEAsset) (now : Nat) :
    AssetService.getCharacterAssets
        (AssetService.storeCharacterAssets db characterId assets now) characterId =
      assets.map (AssetService.toAssetRow characterId now) := by
  rw [storeCharacterAssets_eq]
  unfold AssetService.getCharacterAssets
  rw [List.filter_append]
  have h1 : (db.filter (fun r => r.characterId ≠ characterId)).filter
      (fun r => r.characterId = characterId) = [] := by
    rw [List.filter_eq_nil_iff]
    intro r hr
    rcases List.mem_filter.mp hr with ⟨-, hne⟩
    simp only [ne_eq, decide_not, Bool.not_eq_true', decide_eq_false_iff_not] at hne
    simpa using hne
  have h2 : (assets.map (AssetService.toAssetRow characterId now)).filter
      (fun r => r.characterId = characterId) =
      assets.map (AssetService.toAssetRow characterId now) := by
    apply List.filter_eq_self.mpr
    intro r hr
    rcases List.mem_map.mp hr with ⟨a, _, rfl⟩
    simp [AssetService.toAssetRow]
  rw [h1, h2, List.nil_append]


namespace EnhancedESIClient

/-- `getCharacterAssetsWithFallback`, with the remote fetch
(`getCharacterAssets` against the API) supplied as an environment result.
On fetch success the result is synced into the database
(`storeCharacterAssets`) and the cached rows are returned; the final read
(`getCharacterAssetsWithEnhancedLocationData`) returns the character's rows,
location-decorated — the decoration adds no rows and drops none, so the
returned record set is the row set itself. -/
def getCharacterAssetsWithFallback (db : List AssetRow) (characterId : Nat)
    (forceRefresh : Bool) (fetch : Except String (List EVEAsset))
    (nowSec : Nat) : Except String (List AssetRow) :=
  if forceRefresh then
    match fetch with
    | Except.error e => Except.error e
    | Except.ok assets =>
      let db2 := AssetService.storeCharacterAssets db characterId assets nowSec
      Except.ok (AssetService.getCharacterAssets db2 characterId)
  else
    let cacheIsStale : Bool :=
      match AssetService.lastSyncTime db characterId with
      | none => true
      | some t => decide ((nowSec : Int) - (t : Int) > 1800)
    if cacheIsStale then
      match fetch with
      | Except.error _ => Except.ok (AssetService.getCharacterAssets db characterId)
      | Except.ok assets =>
        let db2 := AssetService.storeCharacterAssets db characterId assets nowSec
        Except.ok (AssetService.getCharacterAssets db2 characterId)
    else Except.ok (AssetService.getCharacterAssets db characterId)

end EnhancedESIClient

/-- C3 counterexample: with NO cached rows and a failing remote fetch (and
`forceRefresh = false`, the cache-policy path the claim describes), the
failure is not propagated: the call swallows the error and returns the empty
cached record set. -/
theorem getAssetsWithFallback_no_cache_swallows_failure :
    AssetService.getCharacterAssets [] 42 = [] ∧
    EnhancedESIClient.getCharacterAssetsWithFallback [] 42 false
        (Except.error "network failure") 1000 = Except.ok [] ∧
    EnhancedESIClient.getCharacterAssetsWithFallback [] 42 false
        (Except.error "network failure") 1000 ≠
      Except.error "network failure" :=
  ⟨rfl, rfl, by simp [EnhancedESIClient.getCharacterAssetsWithFallback,
    AssetService.lastSyncTime, AssetService.getCharacterAssets]⟩

/-- C3 (amended): under a remote-fetch failure, whether the failure
propagates depends only on `forceRefresh`, not on whether a cache exists:
with `forceRefresh = true` the failure always propagates (even over an
existing cache), and with `forceRefresh = false` it is always swallowed and
the cached rows for the identity are returned — the stale cached records
when they exist, the empty set when none do. -/
theorem getAssetsWithFallback_failure_policy (db : List AssetRow)
    (characterId : Nat) (e : String) (nowSec : Nat) :
    EnhancedESIClient.getCharacterAssetsWithFallback db characterId true
        (Except.error e) nowSec = Except.error e ∧
    EnhancedESIClient.getCharacterAssetsWithFallback db characterId false
        (Except.error e) nowSec =
      Except.ok (AssetService.getCharacterAssets db characterId) := by
  constructor
  · rfl
  · unfold EnhancedESIClient.getCharacterAssetsWithFallback
    simp only [if_false, Bool.false_eq_true]
    split <;> rfl

/-! ## Global dispatch queue (`addToRateLimitQueue` / `processRateLimitQueue`)

`addToRateLimitQueue` pushes the caller's resolver onto `rateLimitQueue`
(append at the back) and calls `processRateLimitQueue`.
`processRateLimitQueue` returns immediately if `isProcessingQueue` is set or
the queue is empty; otherwise it sets `isProcessingQueue`, shifts the front
entry, releases it, and schedules (`setTimeout`) clearing the flag followed
by a recursive call.  The model's events are the two entry points: an
admission (push + process) and a timer firing (clear flag + process).
Releases are recorded in admission order in `released`. -/

/-- Dispatch-queue state: the pending queue, the release log, and the
`isProcessingQueue` flag. -/
structure QueueState where
  queue : List Nat
  released : List Nat
  isProcessing : Bool
  deriving DecidableEq, Repr

/-- The two ways `processRateLimitQueue` gets invoked. -/
inductive QueueEvent where
  | enqueue (n : Nat)
  | timer
  deriving DecidableEq, Repr

namespace ESIClient

/-- `processRateLimitQueue`: release the front entry unless already
processing or empty. -/
def processRateLimitQueue (s : QueueState) : QueueState :=
  if s.isProcessing then s
  else match s.queue with
    | [] => s
    | n :: rest => { queue := rest, released := s.released ++ [n], isProcessing := true }

/-- One external event: an admission (`addToRateLimitQueue`) or the
`setTimeout` callback clearing the processing flag and re-processing. -/
def queueStep (s : QueueState) : QueueEvent → QueueState
  | .enqueue n => processRateLimitQueue { s with queue := s.queue ++ [n] }
  | .timer => processRateLimitQueue { s with isProcessing := false }

/-- Run a sequence of events from the initial (empty, idle) state. -/
def runQueue (events : List QueueEvent) : QueueState :=
  events.foldl queueStep ⟨[], [], false⟩

end ESIClient

/-- The admissions of an event trace, in admission order. -/
def enqueuedOf (events : List QueueEvent) : List Nat :=
  events.filterMap (fun e => match e with | .enqueue n => some n | .timer => none)

/-- `processRateLimitQueue` moves entries only from the front of the queue to
the back of the release log. -/
theorem processRateLimitQueue_concat (s : QueueState) :
    (ESIClient.processRateLimitQueue s).released ++
      (ESIClient.processRateLimitQueue s).queue = s.released ++ s.queue := by
  unfold ESIClient.processRateLimitQueue
  split
  · rfl
  · split
    · rfl
    · next heq => simp [heq]

/-- Trace invariant: the release log followed by the pending queue is exactly
the admission sequence. -/
theorem runQueue_concat (events : List QueueEvent) :
    (ESIClient.runQueue events).released ++ (ESIClient.runQueue events).queue =
      enqueuedOf events := by
  suffices h : ∀ (es : List QueueEvent) (s : QueueState),
      (es.foldl ESIClient.queueStep s).released ++ (es.foldl ESIClient.queueStep s).queue =
        s.released ++ s.queue ++ enqueuedOf es by
    simpa using h events ⟨[], [], false⟩
  intro es
  induction es with
  | nil => intro s; simp [enqueuedOf]
  | cons e rest ih =>
    intro s
    rw [List.foldl_cons, ih]
    cases e with
    | enqueue n =>
      have := processRateLimitQueue_concat { s with queue := s.queue ++ [n] }
      simp only [ESIClient.queueStep, this]
      simp [enqueuedOf, List.filterMap_cons]
    | timer =>
      have := processRateLimitQueue_concat { s with isProcessing := false }
      simp only [ESIClient.queueStep, this]
      simp [enqueuedOf, List.filterMap_cons]

/-- C9: for every event trace (arbitrarily interleaved admissions and timer
ticks), the requests released by the dispatch queue are an initial segment of
the admission sequence — released strictly in admission order, never
reordered. -/
theorem runQueue_fifo (events : List QueueEvent) :
    ∃ pending, (ESIClient.runQueue events).released ++ pending = enqueuedOf events :=
  ⟨(ESIClient.runQueue events).queue, runQueue_concat events⟩

/-! ## Containment grouping (Inventory.tsx, `groupAssetsByLocation`)

The component builds `assetMap : itemId → asset` over the whole record set
(`if (itemId) assetMap.set(itemId, asset)`, so a later duplicate overwrites
an earlier one and falsy ids are skipped), then folds over the assets:
  - an asset whose `itemId` is already in `processedAssets` is skipped;
  - otherwise `parentAsset = assetMap.get(locationId)`; if it exists and is
    not the asset itself, the asset is grouped under the key
    `` `${parentLocationId}-${parentLocationFlag}-ship-${parentItemId}` ``
    (creating the group as `[parentAsset]` first and marking the parent
    processed), else under `` `${locationId}-${locationFlag}` ``.
Group keys are modelled structurally (`GroupKey.ship`/`GroupKey.loc`), and
the insertion-ordered string-keyed object as an association list.  Only the
fields `groupAssetsByLocation` reads are modelled on the asset. -/

/-- A renderer-side asset record (normalized field names). -/
structure DisplayAsset where
  itemId : Nat
  locationId : Nat
  locationFlag : String
  deriving DecidableEq, Repr

/-- A grouping key: a raw location key `${locationId}-${locationFlag}` or a
ship/container key `${locationId}-${locationFlag}-ship-${parentItemId}`. -/
inductive GroupKey where
  | loc (locationId : Nat) (flag : String)
  | ship (locationId : Nat) (flag : String) (parentItemId : Nat)
  deriving DecidableEq, Repr

/-- The `assetMap` lookup: the last asset with the given (truthy) `itemId`. -/
def assetMapGet (assets : List DisplayAsset) (key : Nat) : Option DisplayAsset :=
  if key = 0 then none
  else (assets.filter (fun a => a.itemId = key)).getLast?

/-- Lookup in the insertion-ordered grouped object. -/
def lookupGroup (g : List (GroupKey × List DisplayAsset)) (k : GroupKey) :
    Option (List DisplayAsset) :=
  match g with
  | [] => none
  | (k2, v) :: t => if k2 = k then some v else lookupGroup t k

/-- `grouped[k].push(...)`, creating the entry (at the end, in insertion
order) when absent. -/
def pushGroup (g : List (GroupKey × List DisplayAsset)) (k : GroupKey)
    (xs : List DisplayAsset) : List (GroupKey × List DisplayAsset) :=
  match g with
  | [] => [(k, xs)]
  | (k2, v) :: t => if k2 = k then (k2, v ++ xs) :: t else (k2, v) :: pushGroup t k xs

/-- The fold state: the grouped object and the `processedAssets` set. -/
structure GroupState where
  grouped : List (GroupKey × List DisplayAsset)
  processed : List Nat
  deriving Repr

/-- One iteration of the `assets.forEach` body. -/
def groupStep (amap : Nat → Option DisplayAsset) (s : GroupState)
    (a : DisplayAsset) : GroupState :=
  if a.itemId ∈ s.processed then s
  else
    match amap a.locationId with
    | some parent =>
      if parent ≠ a then
        match lookupGroup s.grouped
            (GroupKey.ship parent.locationId parent.locationFlag parent.itemId) with
        | none =>
          { grouped := pushGroup s.grouped
              (GroupKey.ship parent.locationId parent.locationFlag parent.itemId)
              [parent, a]
            processed := a.itemId :: parent.itemId :: s.processed }
        | some _ =>
          { grouped := pushGroup s.grouped
              (GroupKey.ship parent.locationId parent.locationFlag parent.itemId) [a]
            processed := a.itemId :: s.processed }
      else
        { grouped := pushGroup s.grouped
            (GroupKey.loc a.locationId a.locationFlag) [a]
          processed := a.itemId :: s.processed }
    | none =>
      { grouped := pushGroup s.grouped
          (GroupKey.loc a.locationId a.locationFlag) [a]
        processed := a.itemId :: s.processed }

/-- `groupAssetsByLocation` over one record set. -/
def groupAssetsByLocation (assets : List DisplayAsset) :
    List (GroupKey × List DisplayAsset) :=
  (assets.foldl (groupStep (assetMapGet assets)) ⟨[], []⟩).grouped

/-- C5 counterexample: records X (in A), A (in B), B, in that order.  A's
`container_id` equals B's `record_id` and A ≠ B, yet no group keyed by B is
ever formed — A is emitted as the head (parent) of a group keyed by its own
id at raw location `3`, not as a fitted item under B — so the claim fails on
nested containment. -/
theorem groupAssets_nested_containment_violation :
    (DisplayAsset.mk 2 3 "f").locationId = (DisplayAsset.mk 3 100 "h").itemId ∧
    DisplayAsset.mk 2 3 "f" ≠ DisplayAsset.mk 3 100 "h" ∧
    lookupGroup
        (groupAssetsByLocation [⟨1, 2, "g"⟩, ⟨2, 3, "f"⟩, ⟨3, 100, "h"⟩])
        (GroupKey.ship 100 "h" 3) = none ∧
    lookupGroup
        (groupAssetsByLocation [⟨1, 2, "g"⟩, ⟨2, 3, "f"⟩, ⟨3, 100, "h"⟩])
        (GroupKey.ship 3 "f" 2) = some [⟨2, 3, "f"⟩, ⟨1, 2, "g"⟩] := by
  refine ⟨rfl, by decide, ?_, ?_⟩ <;> rfl

/-- C6 counterexample: a self-referential record A (`container_id` equals its
own `record_id`) that also contains another record X is NOT emitted as a
standalone item at its raw location: it becomes the head of the ship group
created for X, and no raw-location group contains it. -/
theorem groupAssets_self_reference_not_standalone :
    (DisplayAsset.mk 1 1 "f").locationId = (DisplayAsset.mk 1 1 "f").itemId ∧
    lookupGroup (groupAssetsByLocation [⟨2, 1, "g"⟩, ⟨1, 1, "f"⟩])
        (GroupKey.loc 1 "f") = none ∧
    lookupGroup (groupAssetsByLocation [⟨2, 1, "g"⟩, ⟨1, 1, "f"⟩])
        (GroupKey.ship 1 "f" 1) = some [⟨1, 1, "f"⟩, ⟨2, 1, "g"⟩] := by
  refine ⟨rfl, ?_, ?_⟩ <;> rfl

/-- Well-formedness of a record set as delivered per identity: distinct,
truthy item ids (the remote API guarantees unique `item_id`s; `0` is the
JavaScript-falsy id skipped by the map-building guard). -/
def GoodIds (assets : List DisplayAsset) : Prop :=
  (assets.map (fun a => a.itemId)).Nodup ∧ ∀ a ∈ assets, a.itemId ≠ 0

/-- With distinct ids, an id determines the record. -/
theorem eq_of_id_eq {assets : List DisplayAsset} (h : GoodIds assets)
    {x y : DisplayAsset} (hx : x ∈ assets) (hy : y ∈ assets)
    (hxy : x.itemId = y.itemId) : x = y :=
  List.inj_on_of_nodup_map h.1 hx hy hxy

/-- A successful `assetMap` lookup returns a member carrying the looked-up id. -/
theorem assetMapGet_mem {assets : List DisplayAsset} {k : Nat} {p : DisplayAsset}
    (h : assetMapGet assets k = some p) : p ∈ assets ∧ p.itemId = k := by
  unfold assetMapGet at h
  split_ifs at h
  have hp := List.mem_of_mem_getLast? h
  rcases List.mem_filter.mp hp with ⟨hmem, hid⟩
  exact ⟨hmem, by simpa using hid⟩

/-- With distinct truthy ids, looking up a member's id finds that member. -/
theorem assetMapGet_self {assets : List DisplayAsset} (hgood : GoodIds assets)
    {b : DisplayAsset} (hb : b ∈ assets) : assetMapGet assets b.itemId = some b := by
  have hk : b.itemId ≠ 0 := hgood.2 b hb
  have hmem : b ∈ assets.filter (fun a => a.itemId = b.itemId) :=
    List.mem_filter.mpr ⟨hb, by simp⟩
  have hnil : assets.filter (fun a => a.itemId = b.itemId) ≠ [] :=
    List.ne_nil_of_mem hmem
  unfold assetMapGet
  rw [if_neg hk]
  cases hlast : (assets.filter (fun a => a.itemId = b.itemId)).getLast? with
  | none => exact absurd (List.getLast?_eq_none_iff.mp hlast) hnil
  | some p =>
    have hp := List.mem_of_mem_getLast? hlast
    rcases List.mem_filter.mp hp with ⟨hpmem, hpid⟩
    have : p = b := eq_of_id_eq hgood hpmem hb (by simpa using hpid)
    rw [this]

/-- Lookup after a push at the same key: the old members (empty when the
entry is created) followed by the pushed elements. -/
theorem lookupGroup_push_self (g : List (GroupKey × List DisplayAsset))
    (k : GroupKey) (xs : List DisplayAsset) :
    lookupGroup (pushGroup g k xs) k = some ((lookupGroup g k).getD [] ++ xs) := by
  induction g with
  | nil => simp [pushGroup, lookupGroup]
  | cons e t ih =>
    obtain ⟨k2, v⟩ := e
    by_cases hk : k2 = k
    · simp [pushGroup, lookupGroup, hk]
    · simp [pushGroup, lookupGroup, hk, ih]

/-- Lookup after a push at a different key is unchanged. -/
theorem lookupGroup_push_ne (g : List (GroupKey × List DisplayAsset))
    (k k2 : GroupKey) (xs : List DisplayAsset) (h : k ≠ k2) :
    lookupGroup (pushGroup g k xs) k2 = lookupGroup g k2 := by
  induction g with
  | nil => simp [pushGroup, lookupGroup, h]
  | cons e t ih =>
    obtain ⟨k3, v⟩ := e
    by_cases hk : k3 = k
    · subst hk
      simp [pushGroup, lookupGroup, h, ih]
    · by_cases hk2 : k3 = k2 <;>
        simp [pushGroup, lookupGroup, hk, hk2, ih, Ne.symm h]

/-- `groupStep` either skips the asset or pushes one batch `xs` at one key:
either the asset alone at its raw-location key, or — when a distinct parent
is found in the map — the asset (plus the parent first, on group creation)
at the parent's ship key.  Newly processed ids are the asset's own id and
possibly the parent's. -/
theorem groupStep_shape (amap : Nat → Option DisplayAsset) (s : GroupState)
    (c : DisplayAsset) :
    groupStep amap s c = s ∨
    ∃ k xs,
      (groupStep amap s c).grouped = pushGroup s.grouped k xs ∧
      (∀ i ∈ (groupStep amap s c).processed,
        i ∈ s.processed ∨ i = c.itemId ∨
          ∃ p, amap c.locationId = some p ∧ i = p.itemId) ∧
      ((k = GroupKey.loc c.locationId c.locationFlag ∧ xs = [c]) ∨
       (∃ p, amap c.locationId = some p ∧ p ≠ c ∧
         k = GroupKey.ship p.locationId p.locationFlag p.itemId ∧
         ((∃ ms, lookupGroup s.grouped k = some ms ∧ xs = [c]) ∨
          (lookupGroup s.grouped k = none ∧ xs = [p, c])))) := by
  by_cases hp : c.itemId ∈ s.processed
  · left
    simp [groupStep, hp]
  · right
    cases hm : amap c.locationId with
    | none =>
      refine ⟨GroupKey.loc c.locationId c.locationFlag, [c], ?_, ?_, Or.inl ⟨rfl, rfl⟩⟩
      · simp [groupStep, hp, hm]
      · intro i hi
        simp only [groupStep, if_neg hp, hm] at hi
        rcases List.mem_cons.mp hi with h | h
        · exact Or.inr (Or.inl h)
        · exact Or.inl h
    | some parent =>
      by_cases hpc : parent = c
      · refine ⟨GroupKey.loc c.locationId c.locationFlag, [c], ?_, ?_, Or.inl ⟨rfl, rfl⟩⟩
        · simp [groupStep, hp, hm, hpc]
        · intro i hi
          simp only [groupStep, if_neg hp, hm, hpc, ne_eq, not_true_eq_false,
            if_false] at hi
          rcases List.mem_cons.mp hi with h | h
          · exact Or.inr (Or.inl h)
          · exact Or.inl h
      · cases hl : lookupGroup s.grouped
            (GroupKey.ship parent.locationId parent.locationFlag parent.itemId) with
        | none =>
          refine ⟨GroupKey.ship parent.locationId parent.locationFlag parent.itemId,
            [parent, c], ?_, ?_, Or.inr ⟨parent, rfl, hpc, rfl, Or.inr ⟨hl, rfl⟩⟩⟩
          · simp [groupStep, hp, hm, hpc, hl]
          · intro i hi
            simp only [groupStep, if_neg hp, hm, ne_eq, hpc, not_false_eq_true,
              if_true, hl] at hi
            rcases List.mem_cons.mp hi with h | h
            · exact Or.inr (Or.inl h)
            · rcases List.mem_cons.mp h with h2 | h2
              · exact Or.inr (Or.inr ⟨parent, rfl, h2⟩)
              · exact Or.inl h2
        | some ms =>
          refine ⟨GroupKey.ship parent.locationId parent.locationFlag parent.itemId,
            [c], ?_, ?_, Or.inr ⟨parent, rfl, hpc, rfl, Or.inl ⟨ms, hl, rfl⟩⟩⟩
          · simp [groupStep, hp, hm, hpc, hl]
          · intro i hi
            simp only [groupStep, if_neg hp, hm, ne_eq, hpc, not_false_eq_true,
              if_true, hl] at hi
            rcases List.mem_cons.mp hi with h | h
            · exact Or.inr (Or.inl h)
            · exact Or.inl h

/-- Asset `A` appears in no raw-location group of the state. -/
def notInLocGroups (A : DisplayAsset) (s : GroupState) : Prop :=
  ∀ l f ms, lookupGroup s.grouped (GroupKey.loc l f) = some ms → A ∉ ms

/-- Asset `A` appears in no ship/container group of the state. -/
def notInShipGroups (A : DisplayAsset) (s : GroupState) : Prop :=
  ∀ l f p ms, lookupGroup s.grouped (GroupKey.ship l f p) = some ms → A ∉ ms

/-- Every ship group starts with the record whose id is the key's parent id. -/
def shipHeads (assets : List DisplayAsset) (s : GroupState) : Prop :=
  ∀ l f p ms, lookupGroup s.grouped (GroupKey.ship l f p) = some ms →
    ∃ q, ms.head? = some q ∧ q ∈ assets ∧ q.itemId = p

/-- Asset `A` sits in the ship group keyed by `B`, whose head (the displayed
parent) is `B`. -/
def inShipGroupOf (A B : DisplayAsset) (s : GroupState) : Prop :=
  ∃ ms, lookupGroup s.grouped
      (GroupKey.ship B.locationId B.locationFlag B.itemId) = some ms ∧
    ms.head? = some B ∧ A ∈ ms

/-- Asset `A` sits in the raw-location group of its own location. -/
def inLocGroupOf (A : DisplayAsset) (s : GroupState) : Prop :=
  ∃ ms, lookupGroup s.grouped
      (GroupKey.loc A.locationId A.locationFlag) = some ms ∧ A ∈ ms

/-- Membership in a `getD []` of a lookup comes from an actual entry. -/
theorem mem_getD_lookup {g : List (GroupKey × List DisplayAsset)} {k : GroupKey}
    {A : DisplayAsset} (h : A ∈ (lookupGroup g k).getD []) :
    ∃ ms, lookupGroup g k = some ms ∧ A ∈ ms := by
  cases hl : lookupGroup g k with
  | none => rw [hl] at h; cases h
  | some ms => rw [hl] at h; exact ⟨ms, rfl, h⟩

/-- A step on an asset `c` that is not `A`, has a different id, and whose
parent (if any) is neither `A` nor carries `A`'s id, cannot introduce `A`
anywhere: `A`'s processed-mark, `A`-freeness of both kinds of groups, and
`A`'s established group memberships are all preserved. -/
theorem groupStep_avoids (amap : Nat → Option DisplayAsset) (s : GroupState)
    (c A : DisplayAsset) (hcid : c.itemId ≠ A.itemId) (hcA : c ≠ A)
    (hparent : ∀ p, amap c.locationId = some p → p ≠ A ∧ p.itemId ≠ A.itemId) :
    (A.itemId ∈ (groupStep amap s c).processed → A.itemId ∈ s.processed) ∧
    (notInLocGroups A s → notInLocGroups A (groupStep amap s c)) ∧
    (notInShipGroups A s → notInShipGroups A (groupStep amap s c)) ∧
    (∀ B, inShipGroupOf A B s → inShipGroupOf A B (groupStep amap s c)) ∧
    (inLocGroupOf A s → inLocGroupOf A (groupStep amap s c)) := by
  rcases groupStep_shape amap s c with heq | ⟨k0, xs, hg, hproc, hks⟩
  · rw [heq]
    exact ⟨fun h => h, fun h => h, fun h => h, fun _ h => h, fun h => h⟩
  · have hxsA : A ∉ xs := by
      rcases hks with ⟨-, rfl⟩ | ⟨p, hm, -, -, hxs⟩
      · intro h
        rcases List.mem_singleton.mp h with rfl
        exact hcA rfl
      · rcases hxs with ⟨-, -, rfl⟩ | ⟨-, rfl⟩
        · intro h
          rcases List.mem_singleton.mp h with rfl
          exact hcA rfl
        · intro h
          rcases List.mem_cons.mp h with rfl | h2
          · exact (hparent _ hm).1 rfl
          · rcases List.mem_singleton.mp h2 with rfl
            exact hcA rfl
    refine ⟨?_, ?_, ?_, ?_, ?_⟩
    · intro hi
      rcases hproc _ hi with h | h | ⟨p, hm, h⟩
      · exact h
      · exact absurd h.symm hcid
      · exact absurd h.symm (hparent p hm).2
    · intro hinv l f ms2 hl2
      rw [hg] at hl2
      by_cases hk : k0 = GroupKey.loc l f
      · subst hk
        rw [lookupGroup_push_self] at hl2
        intro hmem
        rcases List.mem_append.mp ((Option.some.inj hl2) ▸ hmem) with h | h
        · rcases mem_getD_lookup h with ⟨ms, hms, hA⟩
          exact hinv _ _ _ hms hA
        · exact hxsA h
      · rw [lookupGroup_push_ne _ _ _ _ hk] at hl2
        exact hinv _ _ _ hl2
    · intro hinv l f p ms2 hl2
      rw [hg] at hl2
      by_cases hk : k0 = GroupKey.ship l f p
      · subst hk
        rw [lookupGroup_push_self] at hl2
        intro hmem
        rcases List.mem_append.mp ((Option.some.inj hl2) ▸ hmem) with h | h
        · rcases mem_getD_lookup h with ⟨ms, hms, hA⟩
          exact hinv _ _ _ _ hms hA
        · exact hxsA h
      · rw [lookupGroup_push_ne _ _ _ _ hk] at hl2
        exact hinv _ _ _ _ hl2
    · intro B hB
      rcases hB with ⟨ms, hms, hhead, hmem⟩
      by_cases hk : k0 = GroupKey.ship B.locationId B.locationFlag B.itemId
      · subst hk
        refine ⟨ms ++ xs, ?_, ?_, List.mem_append_left _ hmem⟩
        · rw [hg, lookupGroup_push_self, hms]; rfl
        · cases ms with
          | nil => cases hhead
          | cons q t => simpa using hhead
      · exact ⟨ms, by rw [hg, lookupGroup_push_ne _ _ _ _ hk]; exact hms, hhead, hmem⟩
    · intro hB
      rcases hB with ⟨ms, hms, hmem⟩
      by_cases hk : k0 = GroupKey.loc A.locationId A.locationFlag
      · subst hk
        exact ⟨ms ++ xs, by rw [hg, lookupGroup_push_self, hms]; rfl,
          List.mem_append_left _ hmem⟩
      · exact ⟨ms, by rw [hg, lookupGroup_push_ne _ _ _ _ hk]; exact hms, hmem⟩

/-- Any step preserves the ship-group head invariant (groups are created as
`[parent, child]` with the parent looked up from the record set, and only
ever appended to afterwards). -/
theorem groupStep_shipHeads (assets : List DisplayAsset) (s : GroupState)
    (c : DisplayAsset) (hinv : shipHeads assets s) :
    shipHeads assets (groupStep (assetMapGet assets) s c) := by
  rcases groupStep_shape (assetMapGet assets) s c with heq | ⟨k0, xs, hg, -, hks⟩
  · rw [heq]; exact hinv
  · intro l f p ms2 hl2
    rw [hg] at hl2
    by_cases hk : k0 = GroupKey.ship l f p
    · subst hk
      rw [lookupGroup_push_self] at hl2
      cases hl : lookupGroup s.grouped (GroupKey.ship l f p) with
      | some ms =>
        rcases hinv _ _ _ _ hl with ⟨q, hq, hqm, hqi⟩
        refine ⟨q, ?_, hqm, hqi⟩
        rw [hl] at hl2
        rcases Option.some.inj hl2 with rfl
        cases ms with
        | nil => cases hq
        | cons r t => simpa using hq
      | none =>
        rcases hks with ⟨hkk, -⟩ | ⟨q, hm, -, hkk, hxs⟩
        · cases hkk
        · rcases hxs with ⟨ms, hms, -⟩ | ⟨-, rfl⟩
          · rw [hl] at hms
            cases hms
          · rw [hl] at hl2
            rcases Option.some.inj hl2 with rfl
            rcases assetMapGet_mem hm with ⟨hqmem, -⟩
            rcases GroupKey.ship.inj hkk.symm with ⟨-, -, hqid⟩
            exact ⟨q, rfl, hqmem, hqid⟩
    · rw [lookupGroup_push_ne _ _ _ _ hk] at hl2
      exact hinv _ _ _ _ hl2

/-- Processing asset `A` itself when its map lookup yields a distinct parent
`B`: `A` lands in `B`'s ship group with `B` at its head, and raw-location
groups are untouched. -/
theorem groupStep_at_fitted (assets : List DisplayAsset) (hgood : GoodIds assets)
    {A B : DisplayAsset} (hB : B ∈ assets) (hcont : A.locationId = B.itemId)
    (hBA : B ≠ A) (s : GroupState) (hnp : A.itemId ∉ s.processed)
    (hheads : shipHeads assets s) :
    inShipGroupOf A B (groupStep (assetMapGet assets) s A) ∧
    (notInLocGroups A s → notInLocGroups A (groupStep (assetMapGet assets) s A)) := by
  have hm : assetMapGet assets A.locationId = some B := by
    rw [hcont]; exact assetMapGet_self hgood hB
  have hkey : ∀ l f, GroupKey.ship B.locationId B.locationFlag B.itemId ≠
      GroupKey.loc l f := fun l f h => by cases h
  cases hl : lookupGroup s.grouped
      (GroupKey.ship B.locationId B.locationFlag B.itemId) with
  | none =>
    have hstep : groupStep (assetMapGet assets) s A =
        { grouped := pushGroup s.grouped
            (GroupKey.ship B.locationId B.locationFlag B.itemId) [B, A]
          processed := A.itemId :: B.itemId :: s.processed } := by
      simp [groupStep, hnp, hm, hBA, hl]
    constructor
    · refine ⟨[B, A], ?_, rfl, by simp⟩
      rw [hstep, lookupGroup_push_self, hl]
      rfl
    · intro hinv l f ms hlk
      rw [hstep] at hlk
      rw [lookupGroup_push_ne _ _ _ _ (hkey l f)] at hlk
      exact hinv _ _ _ hlk
  | some ms =>
    have hstep : groupStep (assetMapGet assets) s A =
        { grouped := pushGroup s.grouped
            (GroupKey.ship B.locationId B.locationFlag B.itemId) [A]
          processed := A.itemId :: s.processed } := by
      simp [groupStep, hnp, hm, hBA, hl]
    rcases hheads _ _ _ _ hl with ⟨q, hq, hqm, hqi⟩
    have hqB : q = B := eq_of_id_eq hgood hqm hB hqi
    constructor
    · refine ⟨ms ++ [A], ?_, ?_, List.mem_append_right _ (by simp)⟩
      · rw [hstep, lookupGroup_push_self, hl]
        rfl
      · cases ms with
        | nil => cases hq
        | cons r t => rw [hqB] at hq; simpa using hq
    · intro hinv l f ms2 hlk
      rw [hstep] at hlk
      rw [lookupGroup_push_ne _ _ _ _ (hkey l f)] at hlk
      exact hinv _ _ _ hlk

/-- Processing asset `A` itself when its map lookup yields `A` (the
self-container case): `A` is pushed standalone at its raw-location key, and
ship groups are untouched. -/
theorem groupStep_at_self (assets : List DisplayAsset) (hgood : GoodIds assets)
    {A : DisplayAsset} (hA : A ∈ assets) (hself : A.locationId = A.itemId)
    (s : GroupState) (hnp : A.itemId ∉ s.processed) :
    inLocGroupOf A (groupStep (assetMapGet assets) s A) ∧
    (notInShipGroups A s → notInShipGroups A (groupStep (assetMapGet assets) s A)) := by
  have hm : assetMapGet assets A.locationId = some A := by
    rw [hself]; exact assetMapGet_self hgood hA
  have hkey : ∀ l f p, GroupKey.loc A.locationId A.locationFlag ≠
      GroupKey.ship l f p := fun l f p h => by cases h
  have hstep : groupStep (assetMapGet assets) s A =
      { grouped := pushGroup s.grouped
          (GroupKey.loc A.locationId A.locationFlag) [A]
        processed := A.itemId :: s.processed } := by
    simp [groupStep, hnp, hm]
  constructor
  · refine ⟨(lookupGroup s.grouped
      (GroupKey.loc A.locationId A.locationFlag)).getD [] ++ [A], ?_, by simp⟩
    rw [hstep, lookupGroup_push_self]
  · intro hinv l f p ms2 hlk
    rw [hstep] at hlk
    rw [lookupGroup_push_ne _ _ _ _ (hkey l f p)] at hlk
    exact hinv _ _ _ _ hlk

/-- Folding `groupStep` preserves any invariant each step preserves. -/
theorem foldl_groupStep_preserve (amap : Nat → Option DisplayAsset)
    (P : GroupState → Prop) (l : List DisplayAsset)
    (hstep : ∀ s a, a ∈ l → P s → P (groupStep amap s a)) :
    ∀ s, P s → P (l.foldl (groupStep amap) s) := by
  induction l with
  | nil => exact fun s h => h
  | cons a t ih =>
    intro s h
    exact ih (fun s2 b hb => hstep s2 b (List.mem_cons_of_mem a hb)) _
      (hstep s a (List.mem_cons_self a t) h)

/-- C5 (amended): over a record set with distinct truthy ids, when record A's
`container_id` (locationId) equals record B's `record_id` (itemId) and A is
not itself the container of any record in the set, the grouping places A in
the ship group keyed by B — with B as the group's displayed parent — and A
never appears in any raw-location group.  (Without the leaf proviso the
original claim is false: see the nested-containment counterexample.) -/
theorem groupAssets_containment_under_parent
    (assets : List DisplayAsset) (A B : DisplayAsset)
    (hgood : GoodIds assets) (hA : A ∈ assets) (hB : B ∈ assets)
    (hcont : A.locationId = B.itemId)
    (hleaf : ∀ x ∈ assets, x.locationId ≠ A.itemId) :
    (∃ ms, lookupGroup (groupAssetsByLocation assets)
        (GroupKey.ship B.locationId B.locationFlag B.itemId) = some ms ∧
      ms.head? = some B ∧ A ∈ ms) ∧
    (∀ l f ms, lookupGroup (groupAssetsByLocation assets)
        (GroupKey.loc l f) = some ms → A ∉ ms) := by
  have hBA : B ≠ A := by
    intro h
    exact hleaf A hA (by rw [hcont, h])
  obtain ⟨l1, l2, hsplit⟩ := List.append_of_mem hA
  subst hsplit
  have hnodup : ((l1 ++ A :: l2).map (fun a => a.itemId)).Nodup := hgood.1
  rw [List.map_append, List.map_cons] at hnodup
  rcases List.nodup_append.mp hnodup with ⟨-, hcons, hdisj⟩
  have hne1 : ∀ c ∈ l1, c.itemId ≠ A.itemId := by
    intro c hc heq
    apply hdisj (List.mem_map_of_mem _ hc)
    rw [heq]
    exact List.mem_cons_self _ _
  have hne2 : ∀ c ∈ l2, c.itemId ≠ A.itemId := by
    intro c hc heq
    exact (List.nodup_cons.mp hcons).1 (heq ▸ List.mem_map_of_mem _ hc)
  have hcond : ∀ c, c ∈ l1 ++ A :: l2 → c.itemId ≠ A.itemId →
      (c ≠ A ∧ ∀ p, assetMapGet (l1 ++ A :: l2) c.locationId = some p →
        p ≠ A ∧ p.itemId ≠ A.itemId) := by
    intro c hcmem hcid
    refine ⟨fun h => hcid (by rw [h]), ?_⟩
    intro p hp
    rcases assetMapGet_mem hp with ⟨-, hpid⟩
    have hcl : c.locationId ≠ A.itemId := hleaf c hcmem
    exact ⟨fun h => hcl (by rw [← hpid, h]), fun h => hcl (hpid ▸ h)⟩
  have hP1step : ∀ s c, c ∈ l1 →
      (A.itemId ∉ s.processed ∧ shipHeads (l1 ++ A :: l2) s ∧ notInLocGroups A s) →
      (A.itemId ∉ (groupStep (assetMapGet (l1 ++ A :: l2)) s c).processed ∧
        shipHeads (l1 ++ A :: l2) (groupStep (assetMapGet (l1 ++ A :: l2)) s c) ∧
        notInLocGroups A (groupStep (assetMapGet (l1 ++ A :: l2)) s c)) := by
    intro s c hc ⟨hp, hh, hnl⟩
    have hcid := hne1 c hc
    rcases hcond c (List.mem_append_left _ hc) hcid with ⟨hcA, hparent⟩
    have hav := groupStep_avoids (assetMapGet (l1 ++ A :: l2)) s c A hcid hcA hparent
    exact ⟨fun hin => hp (hav.1 hin), groupStep_shipHeads _ s c hh, hav.2.1 hnl⟩
  have h0 : A.itemId ∉ ([] : List Nat) ∧
      shipHeads (l1 ++ A :: l2) ⟨[], []⟩ ∧ notInLocGroups A ⟨[], []⟩ := by
    refine ⟨by simp, ?_, ?_⟩
    · intro l f p ms h
      simp [lookupGroup] at h
    · intro l f ms h
      simp [lookupGroup] at h
  have hs1 := foldl_groupStep_preserve (assetMapGet (l1 ++ A :: l2))
    (fun s => A.itemId ∉ s.processed ∧ shipHeads (l1 ++ A :: l2) s ∧
      notInLocGroups A s) l1 hP1step ⟨[], []⟩ h0
  have hstepA := groupStep_at_fitted (l1 ++ A :: l2) hgood hB hcont hBA
    (l1.foldl (groupStep (assetMapGet (l1 ++ A :: l2))) ⟨[], []⟩) hs1.1 hs1.2.1
  have hP2step : ∀ s c, c ∈ l2 →
      (inShipGroupOf A B s ∧ notInLocGroups A s) →
      (inShipGroupOf A B (groupStep (assetMapGet (l1 ++ A :: l2)) s c) ∧
        notInLocGroups A (groupStep (assetMapGet (l1 ++ A :: l2)) s c)) := by
    intro s c hc ⟨hin, hnl⟩
    have hcid := hne2 c hc
    rcases hcond c (List.mem_append_right _ (List.mem_cons_of_mem A hc)) hcid with
      ⟨hcA, hparent⟩
    have hav := groupStep_avoids (assetMapGet (l1 ++ A :: l2)) s c A hcid hcA hparent
    exact ⟨hav.2.2.2.1 B hin, hav.2.1 hnl⟩
  have hfin := foldl_groupStep_preserve (assetMapGet (l1 ++ A :: l2))
    (fun s => inShipGroupOf A B s ∧ notInLocGroups A s) l2 hP2step
    (groupStep (assetMapGet (l1 ++ A :: l2))
      (l1.foldl (groupStep (assetMapGet (l1 ++ A :: l2))) ⟨[], []⟩) A)
    ⟨hstepA.1, hstepA.2 hs1.2.2⟩
  have hfold : groupAssetsByLocation (l1 ++ A :: l2) =
      (l2.foldl (groupStep (assetMapGet (l1 ++ A :: l2)))
        (groupStep (assetMapGet (l1 ++ A :: l2))
          (l1.foldl (groupStep (assetMapGet (l1 ++ A :: l2))) ⟨[], []⟩) A)).grouped := by
    unfold groupAssetsByLocation
    rw [List.foldl_append, List.foldl_cons]
  constructor
  · rcases hfin.1 with ⟨ms, hms, hh, hm⟩
    exact ⟨ms, by rw [hfold]; exact hms, hh, hm⟩
  · intro l f ms hlk
    rw [hfold] at hlk
    exact hfin.2 l f ms hlk

/-- C5 witness: the two-record set where A (id 2) sits inside B (id 3) and A
contains nothing
satisfies all hypotheses, and A is grouped under B with B at the head. -/
theorem groupAssets_containment_under_parent_witness :
    GoodIds [⟨2, 3, "f"⟩, ⟨3, 100, "h"⟩] ∧
    (⟨2, 3, "f"⟩ : DisplayAsset) ∈ ([⟨2, 3, "f"⟩, ⟨3, 100, "h"⟩] : List DisplayAsset) ∧
    (⟨3, 100, "h"⟩ : DisplayAsset) ∈ ([⟨2, 3, "f"⟩, ⟨3, 100, "h"⟩] : List DisplayAsset) ∧
    (DisplayAsset.mk 2 3 "f").locationId = (DisplayAsset.mk 3 100 "h").itemId ∧
    (∀ x ∈ ([⟨2, 3, "f"⟩, ⟨3, 100, "h"⟩] : List DisplayAsset),
      x.locationId ≠ (DisplayAsset.mk 2 3 "f").itemId) ∧
    ((∃ ms, lookupGroup (groupAssetsByLocation [⟨2, 3, "f"⟩, ⟨3, 100, "h"⟩])
        (GroupKey.ship (DisplayAsset.mk 3 100 "h").locationId
          (DisplayAsset.mk 3 100 "h").locationFlag
          (DisplayAsset.mk 3 100 "h").itemId) = some ms ∧
      ms.head? = some ⟨3, 100, "h"⟩ ∧ (⟨2, 3, "f"⟩ : DisplayAsset) ∈ ms) ∧
     (∀ l f ms, lookupGroup (groupAssetsByLocation [⟨2, 3, "f"⟩, ⟨3, 100, "h"⟩])
        (GroupKey.loc l f) = some ms → (⟨2, 3, "f"⟩ : DisplayAsset) ∉ ms)) :=
  ⟨⟨by decide, by decide⟩, by decide, by decide, rfl, by decide,
   groupAssets_containment_under_parent [⟨2, 3, "f"⟩, ⟨3, 100, "h"⟩]
     ⟨2, 3, "f"⟩ ⟨3, 100, "h"⟩ ⟨by decide, by decide⟩ (by decide) (by decide)
     rfl (by decide)⟩

/-- C6 (amended): over a record set with distinct truthy ids, a record whose
`container_id` equals its own `record_id` and which is not referenced as
container by any other record is grouped as a standalone item at its
raw-location key, and it never appears in any ship/container group — in
particular it is never made its own parent.  (Without the not-referenced
proviso the standalone part is false: see the self-reference
counterexample.) -/
theorem groupAssets_self_container_standalone
    (assets : List DisplayAsset) (A : DisplayAsset)
    (hgood : GoodIds assets) (hA : A ∈ assets)
    (hself : A.locationId = A.itemId)
    (honly : ∀ x ∈ assets, x ≠ A → x.locationId ≠ A.itemId) :
    (∃ ms, lookupGroup (groupAssetsByLocation assets)
        (GroupKey.loc A.locationId A.locationFlag) = some ms ∧ A ∈ ms) ∧
    (∀ l f p ms, lookupGroup (groupAssetsByLocation assets)
        (GroupKey.ship l f p) = some ms → A ∉ ms) := by
  obtain ⟨l1, l2, hsplit⟩ := List.append_of_mem hA
  subst hsplit
  have hnodup : ((l1 ++ A :: l2).map (fun a => a.itemId)).Nodup := hgood.1
  rw [List.map_append, List.map_cons] at hnodup
  rcases List.nodup_append.mp hnodup with ⟨-, hcons, hdisj⟩
  have hne1 : ∀ c ∈ l1, c.itemId ≠ A.itemId := by
    intro c hc heq
    apply hdisj (List.mem_map_of_mem _ hc)
    rw [heq]
    exact List.mem_cons_self _ _
  have hne2 : ∀ c ∈ l2, c.itemId ≠ A.itemId := by
    intro c hc heq
    exact (List.nodup_cons.mp hcons).1 (heq ▸ List.mem_map_of_mem _ hc)
  have hcond : ∀ c, c ∈ l1 ++ A :: l2 → c.itemId ≠ A.itemId →
      (c ≠ A ∧ ∀ p, assetMapGet (l1 ++ A :: l2) c.locationId = some p →
        p ≠ A ∧ p.itemId ≠ A.itemId) := by
    intro c hcmem hcid
    have hcA : c ≠ A := fun h => hcid (by rw [h])
    refine ⟨hcA, ?_⟩
    intro p hp
    rcases assetMapGet_mem hp with ⟨-, hpid⟩
    have hcl : c.locationId ≠ A.itemId := honly c hcmem hcA
    exact ⟨fun h => hcl (by rw [← hpid, h]), fun h => hcl (hpid ▸ h)⟩
  have hP1step : ∀ s c, c ∈ l1 →
      (A.itemId ∉ s.processed ∧ notInShipGroups A s) →
      (A.itemId ∉ (groupStep (assetMapGet (l1 ++ A :: l2)) s c).processed ∧
        notInShipGroups A (groupStep (assetMapGet (l1 ++ A :: l2)) s c)) := by
    intro s c hc ⟨hp, hns⟩
    have hcid := hne1 c hc
    rcases hcond c (List.mem_append_left _ hc) hcid with ⟨hcA, hparent⟩
    have hav := groupStep_avoids (assetMapGet (l1 ++ A :: l2)) s c A hcid hcA hparent
    exact ⟨fun hin => hp (hav.1 hin), hav.2.2.1 hns⟩
  have h0 : A.itemId ∉ ([] : List Nat) ∧ notInShipGroups A ⟨[], []⟩ := by
    refine ⟨by simp, ?_⟩
    intro l f p ms h
    simp [lookupGroup] at h
  have hs1 := foldl_groupStep_preserve (assetMapGet (l1 ++ A :: l2))
    (fun s => A.itemId ∉ s.processed ∧ notInShipGroups A s) l1 hP1step ⟨[], []⟩ h0
  have hstepA := groupStep_at_self (l1 ++ A :: l2) hgood hA hself
    (l1.foldl (groupStep (assetMapGet (l1 ++ A :: l2))) ⟨[], []⟩) hs1.1
  have hP2step : ∀ s c, c ∈ l2 →
      (inLocGroupOf A s ∧ notInShipGroups A s) →
      (inLocGroupOf A (groupStep (assetMapGet (l1 ++ A :: l2)) s c) ∧
        notInShipGroups A (groupStep (assetMapGet (l1 ++ A :: l2)) s c)) := by
    intro s c hc ⟨hin, hns⟩
    have hcid := hne2 c hc
    rcases hcond c (List.mem_append_right _ (List.mem_cons_of_mem A hc)) hcid with
      ⟨hcA, hparent⟩
    have hav := groupStep_avoids (assetMapGet (l1 ++ A :: l2)) s c A hcid hcA hparent
    exact ⟨hav.2.2.2.2 hin, hav.2.2.1 hns⟩
  have hfin := foldl_groupStep_preserve (assetMapGet (l1 ++ A :: l2))
    (fun s => inLocGroupOf A s ∧ notInShipGroups A s) l2 hP2step
    (groupStep (assetMapGet (l1 ++ A :: l2))
      (l1.foldl (groupStep (assetMapGet (l1 ++ A :: l2))) ⟨[], []⟩) A)
    ⟨hstepA.1, hstepA.2 hs1.2⟩
  have hfold : groupAssetsByLocation (l1 ++ A :: l2) =
      (l2.foldl (groupStep (assetMapGet (l1 ++ A :: l2)))
        (groupStep (assetMapGet (l1 ++ A :: l2))
          (l1.foldl (groupStep (assetMapGet (l1 ++ A :: l2))) ⟨[], []⟩) A)).grouped := by
    unfold groupAssetsByLocation
    rw [List.foldl_append, List.foldl_cons]
  constructor
  · rcases hfin.1 with ⟨ms, hms, hm⟩
    exact ⟨ms, by rw [hfold]; exact hms, hm⟩
  · intro l f p ms hlk
    rw [hfold] at hlk
    exact hfin.2 l f p ms hlk

/-- C6 witness: the singleton record set with a self-referential record: it
is grouped standalone at its raw-location key and sits in no ship group. -/
theorem groupAssets_self_container_standalone_witness :
    GoodIds [⟨1, 1, "f"⟩] ∧
    (⟨1, 1, "f"⟩ : DisplayAsset) ∈ ([⟨1, 1, "f"⟩] : List DisplayAsset) ∧
    (DisplayAsset.mk 1 1 "f").locationId = (DisplayAsset.mk 1 1 "f").itemId ∧
    (∀ x ∈ ([⟨1, 1, "f"⟩] : List DisplayAsset), x ≠ ⟨1, 1, "f"⟩ →
      x.locationId ≠ (DisplayAsset.mk 1 1 "f").itemId) ∧
    ((∃ ms, lookupGroup (groupAssetsByLocation [⟨1, 1, "f"⟩])
        (GroupKey.loc (DisplayAsset.mk 1 1 "f").locationId
          (DisplayAsset.mk 1 1 "f").locationFlag) = some ms ∧
      (⟨1, 1, "f"⟩ : DisplayAsset) ∈ ms) ∧
     (∀ l f p ms, lookupGroup (groupAssetsByLocation [⟨1, 1, "f"⟩])
        (GroupKey.ship l f p) = some ms → (⟨1, 1, "f"⟩ : DisplayAsset) ∉ ms)) :=
  ⟨⟨by decide, by decide⟩, by decide, rfl, by decide,
   groupAssets_self_container_standalone [⟨1, 1, "f"⟩] ⟨1, 1, "f"⟩
     ⟨by decide, by decide⟩ (by decide) rfl (by decide)⟩
